import Mathlib

/-!
A verification development for the `shign` audio-alignment library.

The Python source (`shign/util.py`, `shign/shign.py`) is embedded shallowly:

* waveforms and envelopes are `List ℚ` (idealized exact arithmetic in place of
  IEEE floats; every concrete evaluation below stays inside ℚ);
* Python's `int(x)` truncation toward zero is `pyInt`;
* `np.sqrt` is modelled by `ratSqrt`, which agrees with the real square root
  whenever its argument is a perfect square of a rational — every concrete
  input evaluated by a theorem below keeps all radicands perfect squares;
* fallible steps (NumPy's `ValueError` on correlating an empty array, the
  `Exception` raised by `shift_align` on an unknown policy name) return
  `Except PyErr`.
-/

namespace Shign

/-- The Python exceptions the embedded code can raise.  `degenerateInput` is the
explicit precondition error the specification calls for; the code itself never
raises it. -/
inductive PyErr where
  /-- NumPy `ValueError` raised when a correlation input array is empty. -/
  | emptyCorrelate
  /-- `Exception` raised by `shift_align` for an unknown `align_how`. -/
  | unknownAlignHow
  /-- The descriptive degenerate-input error demanded by the spec (never raised). -/
  | degenerateInput
  deriving DecidableEq, Repr

/-- Python `int(q)`: truncation toward zero (`Int.tdiv` is T-division and the
denominator of a `Rat` is positive). -/
def pyInt (q : ℚ) : ℤ := q.num.tdiv q.den

/-- `util.frames_to_ms`. -/
def frames_to_ms (frames frame_length_ms : ℚ) : ℚ := frames * frame_length_ms

/-- `util.ms_to_frames`: `int(ms / frame_length_ms)`. -/
def ms_to_frames (ms frame_length_ms : ℚ) : ℤ := pyInt (ms / frame_length_ms)

/-- `util.sec_to_samples`: `int(sec * sr)`. -/
def sec_to_samples (sec : ℚ) (sr : ℕ) : ℤ := pyInt (sec * (sr : ℚ))

/-- `util.ms_to_samples`. -/
def ms_to_samples (ms : ℚ) (sr : ℕ) : ℤ := sec_to_samples (ms / 1000) sr

/-- `util.samples_to_sec`. -/
def samples_to_sec (samples : ℤ) (sr : ℕ) : ℚ := (samples : ℚ) / (sr : ℚ)

/-- `util.samples_to_ms`. -/
def samples_to_ms (samples : ℤ) (sr : ℕ) : ℚ := 1000 * samples_to_sec samples sr

/-- `util.sec_to_frames`. -/
def sec_to_frames (sec frame_length_ms : ℚ) : ℤ := ms_to_frames (1000 * sec) frame_length_ms

/-- Integer square root by linear scan (structural recursion, so that concrete
instances reduce inside the kernel): the number of `k ∈ [1, n]` with
`k * k ≤ n`, which is `⌊√n⌋`. -/
def natSqrt (n : ℕ) : ℕ := ((List.range (n + 1)).filter (fun k => k * k ≤ n)).length - 1

/-- Model of `np.sqrt` on exact rationals: the componentwise integer square
root.  It coincides with the real square root exactly on perfect-square
rationals, which is the only place any theorem below evaluates it. -/
def ratSqrt (q : ℚ) : ℚ := (natSqrt q.num.toNat : ℚ) / (natSqrt q.den : ℚ)

/-- Python `range(0, stop, step)` for a possibly negative `stop` and a positive
`step`: the indices `0, step, 2*step, …` that are `< stop`. -/
def pyRange (stop : ℤ) (step : ℕ) : List ℕ :=
  (List.range (if stop ≤ 0 then 0 else (stop.toNat + step - 1) / step)).map (· * step)

/-- `np.sqrt(np.mean(audio[i:i+win]**2))` for one window of
`audio_to_rms_envelope`. -/
def window_rms (audio : List ℚ) (i win : ℕ) : ℚ :=
  let slice := (audio.drop i).take win
  ratSqrt ((slice.map (fun x => x * x)).sum / (slice.length : ℚ))

/-- The comprehension inside `util.audio_to_rms_envelope`, with window and hop
already converted to sample counts:
`[rms(audio[i:i+win]) for i in range(0, len(audio) - win, hop)]`. -/
def rms_frames (audio : List ℚ) (win hop : ℕ) : List ℚ :=
  (pyRange ((audio.length : ℤ) - (win : ℤ)) hop).map (fun i => window_rms audio i win)

/-- `util.audio_to_rms_envelope`.  The window and hop lengths are converted from
milliseconds with the waveform's own sample rate.  All call sites modelled here
have a positive hop count (`hop_length_ms = 10`, `sr ≥ 100`); a nonpositive hop
would make Python's `range` raise or loop downward and is outside every claim. -/
def audio_to_rms_envelope (audio : List ℚ) (sr : ℕ) (win_length_ms hop_length_ms : ℚ) :
    List ℚ :=
  let win := ms_to_samples win_length_ms sr
  let hop := ms_to_samples hop_length_ms sr
  rms_frames audio win.toNat hop.toNat

/-- One entry of `scipy.signal.correlate(a, b, mode='full')`:
`c[j] = Σ_i a[i] * b[i + len(b) - 1 - j]` (indices outside `b` contribute 0).
Writing the lag `t = j - (len(b) - 1)`, the nonzero products pair `a` against
`b` shifted by `t`, which is the zip of the two lists with the leading `|t|`
elements of one of them dropped. -/
def correlateEntry (a b : List ℚ) (j : ℕ) : ℚ :=
  let t : ℤ := (j : ℤ) - ((b.length : ℤ) - 1)
  if t ≤ 0 then (List.zipWith (· * ·) a (b.drop (-t).toNat)).sum
  else (List.zipWith (· * ·) (a.drop t.toNat) b).sum

/-- `scipy.signal.correlate(a, b, mode='full')` on nonempty inputs: the list of
`len(a) + len(b) - 1` lag sums. -/
def correlateLists (a b : List ℚ) : List ℚ :=
  (List.range (a.length + b.length - 1)).map (correlateEntry a b)

/-- `np.ones_like`. -/
def onesLike (l : List ℚ) : List ℚ := List.replicate l.length 1

/-- `np.argmax`: index of the first occurrence of the maximum. -/
def argmaxAux : List ℚ → ℕ → ℕ → ℚ → ℕ
  | [], _, best, _ => best
  | x :: xs, cur, best, bestVal =>
      if bestVal < x then argmaxAux xs (cur + 1) cur x
      else argmaxAux xs (cur + 1) best bestVal

/-- `np.argmax` over a list (0 on the empty list, which NumPy rejects; every
use below is on a nonempty list). -/
def argmaxIdx : List ℚ → ℕ
  | [] => 0
  | x :: xs => argmaxAux xs 1 0 x

/-- Zero out the elements whose index `i` satisfies `lo ≤ i < hi`, the effect
of a Python slice assignment `corr[lo:hi] = 0` on normalized bounds. -/
def maskIdx (lo hi : ℕ) : ℕ → List ℚ → List ℚ
  | _, [] => []
  | k, x :: xs => (if lo ≤ k ∧ k < hi then 0 else x) :: maskIdx lo hi (k + 1) xs

/-- Normalize a (possibly negative) Python slice bound against a length:
negative bounds count from the end and clamp at 0, nonnegative bounds clamp at
the length. -/
def pyBound (len : ℕ) (s : ℤ) : ℕ :=
  if s < 0 then ((len : ℤ) + s).toNat else min s.toNat len

/-- The `min_overlap_sec` constraint step of `get_shift_ms`:
`corr[:n] = 0` followed by `corr[-n:] = 0`.  Note that for `n = 0` the second
assignment is `corr[0:] = 0` and zeroes the whole sequence. -/
def min_overlap_step (corr : List ℚ) (n : ℤ) : List ℚ :=
  let c1 := maskIdx 0 (pyBound corr.length n) 0 corr
  maskIdx (pyBound c1.length (-n)) c1.length 0 c1

/-- The `max_shift_sec` constraint step of `get_shift_ms`:
`corr[:max(half_idx - n, 0)] = 0` and `corr[min(half_idx + n, len(corr)):] = 0`. -/
def max_shift_step (corr : List ℚ) (half_idx : ℕ) (n : ℤ) : List ℚ :=
  let c1 := maskIdx 0 (pyBound corr.length (max ((half_idx : ℤ) - n) 0)) 0 corr
  maskIdx (pyBound c1.length (min ((half_idx : ℤ) + n) (c1.length : ℤ))) c1.length 0 c1

/-- `int(np.round(len / 2))` with NumPy's round-half-to-even tie rule: for an
odd `len` the value `len / 2` is exactly halfway and rounds to the even
neighbour. -/
def npRoundHalfLen (len : ℕ) : ℕ :=
  if len % 2 = 0 then len / 2
  else if (len / 2) % 2 = 0 then len / 2 else len / 2 + 1

/-- The correlation of the two envelopes divided elementwise by the correlation
of two all-ones envelopes (lines `corr_num` / `corr_denom` / `corr` of
`get_shift_ms`). -/
def normalized_corr (rms_a rms_b : List ℚ) : List ℚ :=
  List.zipWith (· / ·) (correlateLists rms_a rms_b) (correlateLists (onesLike rms_a) (onesLike rms_b))

/-- The normalized correlation after both constraint steps of `get_shift_ms`. -/
def constrained_corr (rms_a rms_b : List ℚ) (hop_length_ms min_overlap_sec max_shift_sec : ℚ) :
    List ℚ :=
  let corr := normalized_corr rms_a rms_b
  let half_idx := npRoundHalfLen corr.length
  let corr1 := if min_overlap_sec ≠ 0 then
      min_overlap_step corr (sec_to_frames min_overlap_sec hop_length_ms) else corr
  if max_shift_sec ≠ 0 then
      max_shift_step corr1 half_idx (sec_to_frames max_shift_sec hop_length_ms) else corr1

/-- The final lines of `get_shift_ms`: argmax of the constrained correlation,
recentered by `half_idx`, corrected by half the envelope-length difference and
converted to milliseconds. -/
def shift_from_envelopes (rms_a rms_b : List ℚ)
    (hop_length_ms min_overlap_sec max_shift_sec : ℚ) : ℚ :=
  let corr := normalized_corr rms_a rms_b
  let half_idx := npRoundHalfLen corr.length
  let shift_idx : ℚ := (argmaxIdx (constrained_corr rms_a rms_b hop_length_ms min_overlap_sec max_shift_sec) : ℚ)
      - (half_idx : ℚ) + ((rms_a.length : ℚ) - (rms_b.length : ℚ)) / 2
  frames_to_ms shift_idx hop_length_ms

/-- `shign.get_shift_ms`.  `np.correlate` raises a `ValueError` when either
input array is empty, which is modelled by the emptiness test guarding the
otherwise pure correlation pipeline; the code contains no degenerate-input
check of its own. -/
def get_shift_ms (audio_a audio_b : List ℚ) (sr_a sr_b : ℕ)
    (win_length_ms hop_length_ms min_overlap_sec max_shift_sec : ℚ) : Except PyErr ℚ :=
  let rms_a := audio_to_rms_envelope audio_a sr_a win_length_ms hop_length_ms
  let rms_b := audio_to_rms_envelope audio_b sr_b win_length_ms hop_length_ms
  if rms_a.isEmpty || rms_b.isEmpty then .error .emptyCorrelate
  else .ok (shift_from_envelopes rms_a rms_b hop_length_ms min_overlap_sec max_shift_sec)

/-- `shign.pad_both`. -/
def pad_both (audio_a audio_b : List ℚ) (sr_a sr_b : ℕ) (shift_ms : ℚ) :
    List ℚ × List ℚ :=
  let shift_start_a_samples := ms_to_samples (-(min 0 shift_ms)) sr_a
  let shift_start_b_samples := ms_to_samples (max 0 shift_ms) sr_b
  let a1 := List.replicate shift_start_a_samples.toNat 0 ++ audio_a
  let b1 := List.replicate shift_start_b_samples.toNat 0 ++ audio_b
  let shift_end_ms := samples_to_ms (a1.length : ℤ) sr_a - samples_to_ms (b1.length : ℤ) sr_b
  let shift_end_a_samples := ms_to_samples (-(min 0 shift_end_ms)) sr_a
  let shift_end_b_samples := ms_to_samples (max 0 shift_end_ms) sr_b
  (a1 ++ List.replicate shift_end_a_samples.toNat 0,
   b1 ++ List.replicate shift_end_b_samples.toNat 0)

/-- `shign.crop_both`.  `audio[s:]` with `s ≥ 0` is `List.drop`, and
`audio[:-k]` with `k > 0` is `List.take (len - k)` (both clamp like Python). -/
def crop_both (audio_a audio_b : List ℚ) (sr_a sr_b : ℕ) (shift_ms : ℚ) :
    List ℚ × List ℚ :=
  let shift_start_a_samples := ms_to_samples (max 0 shift_ms) sr_a
  let shift_start_b_samples := ms_to_samples (-(min 0 shift_ms)) sr_b
  let a1 := audio_a.drop shift_start_a_samples.toNat
  let b1 := audio_b.drop shift_start_b_samples.toNat
  let shift_end_ms := samples_to_ms (a1.length : ℤ) sr_a - samples_to_ms (b1.length : ℤ) sr_b
  let shift_end_a_samples := ms_to_samples (max 0 shift_end_ms) sr_a
  let shift_end_b_samples := ms_to_samples (-(min 0 shift_end_ms)) sr_b
  let a2 := if 0 < shift_end_a_samples then a1.take (a1.length - shift_end_a_samples.toNat) else a1
  let b2 := if 0 < shift_end_b_samples then b1.take (b1.length - shift_end_b_samples.toNat) else b1
  (a2, b2)

/-- `shign.pad_and_crop_one_to_match_other`. -/
def pad_and_crop_one_to_match_other (audio_a audio_b : List ℚ) (sr_a sr_b : ℕ)
    (shift_ms : ℚ) : List ℚ × List ℚ :=
  let shift_start_samples := ms_to_samples shift_ms sr_b
  let b1 := if shift_start_samples < 0 then audio_b.drop (-shift_start_samples).toNat
            else List.replicate shift_start_samples.toNat 0 ++ audio_b
  let shift_end_ms := samples_to_ms (audio_a.length : ℤ) sr_a - samples_to_ms (b1.length : ℤ) sr_b
  let shift_end_samples := ms_to_samples shift_end_ms sr_b
  let b2 := if shift_end_samples < 0 then b1.take (b1.length - (-shift_end_samples).toNat)
            else b1 ++ List.replicate shift_end_samples.toNat 0
  (audio_a, b2)

/-- `shign.shift_align` on in-memory waveforms with explicit sample rates (the
string/`librosa.load` branch and the non-`None` assertions are outside the
core).  The shift is estimated first; the `align_how` dispatch, including the
`raise` for an unknown value, happens only afterwards. -/
def shift_align (audio_a audio_b : List ℚ) (sr_a sr_b : ℕ) (align_how : String)
    (min_overlap_sec max_shift_sec : ℚ) : Except PyErr (List ℚ × List ℚ) :=
  match get_shift_ms audio_a audio_b sr_a sr_b 25 10 min_overlap_sec max_shift_sec with
  | .error e => .error e
  | .ok s =>
    if align_how = "pad_both" then .ok (pad_both audio_a audio_b sr_a sr_b s)
    else if align_how = "crop_both" then .ok (crop_both audio_a audio_b sr_a sr_b s)
    else if align_how = "pad_and_crop_one_to_match_other" then
      .ok (pad_and_crop_one_to_match_other audio_a audio_b sr_a sr_b s)
    else .error .unknownAlignHow

/-- Concrete waveform refuting the self-alignment claim: 104 constant samples.
At `sr = 100` the analysis window is 2 samples and the hop 1 sample, so the
envelope has 102 constant frames, the normalized self-correlation is 1 at all
203 lags, and after the default `min_overlap_sec` masking the surviving
entries (indices 100, 101, 102) are all tied — `np.argmax` picks index 100,
two frames left of `half_idx = 102`. -/
def c7_audio : List ℚ := List.replicate 104 (1 : ℚ)

/-- The RMS envelope of `c7_audio` at `sr = 100`. -/
def c7_rms : List ℚ := List.replicate 102 (1 : ℚ)

/-- A constant waveform of 103 samples, used as a well-behaved witness input:
at `sr = 100` its envelope has 101 frames, and the default `min_overlap_sec`
constraint leaves exactly the central correlation entry unzeroed. -/
def wit_const : List ℚ := List.replicate 103 1

instance : DecidableEq (Except PyErr ℚ) := fun
  | .ok a, .ok b =>
      if h : a = b then .isTrue (by rw [h]) else .isFalse (by intro hc; cases hc; exact h rfl)
  | .error a, .error b =>
      if h : a = b then .isTrue (by rw [h]) else .isFalse (by intro hc; cases hc; exact h rfl)
  | .ok _, .error _ => .isFalse (by intro hc; cases hc)
  | .error _, .ok _ => .isFalse (by intro hc; cases hc)

instance : DecidableEq (Except PyErr (List ℚ × List ℚ)) := fun
  | .ok a, .ok b =>
      if h : a = b then .isTrue (by rw [h]) else .isFalse (by intro hc; cases hc; exact h rfl)
  | .error a, .error b =>
      if h : a = b then .isTrue (by rw [h]) else .isFalse (by intro hc; cases hc; exact h rfl)
  | .ok _, .error _ => .isFalse (by intro hc; cases hc)
  | .error _, .ok _ => .isFalse (by intro hc; cases hc)

attribute [local semireducible] Rat.add Rat.mul Rat.sub Rat.inv Rat.ofScientific

set_option maxRecDepth 4000000

set_option maxHeartbeats 12000000

/-! ### Properties of the embedded primitives -/

theorem pyInt_eq_floor {q : ℚ} (h : 0 ≤ q) : pyInt q = ⌊q⌋ := by
  unfold pyInt
  rw [Rat.floor_def]
  exact Int.tdiv_eq_ediv (Rat.num_nonneg.mpr h) (Int.ofNat_nonneg q.den)

theorem pyInt_neg (q : ℚ) : pyInt (-q) = -pyInt q := by
  unfold pyInt
  rw [Rat.neg_num, Rat.neg_den, Int.neg_tdiv]

theorem pyInt_eq_ceil {q : ℚ} (h : q ≤ 0) : pyInt q = ⌈q⌉ := by
  have h2 : pyInt (-q) = ⌊-q⌋ := pyInt_eq_floor (neg_nonneg.mpr h)
  rw [pyInt_neg, Int.floor_neg] at h2
  omega

theorem pyInt_intCast (k : ℤ) : pyInt (k : ℚ) = k := by
  unfold pyInt
  rw [Rat.intCast_num, Rat.intCast_den]
  exact Int.tdiv_one k

theorem pyInt_zero : pyInt 0 = 0 := by
  have := pyInt_intCast 0
  simpa using this

theorem pyInt_nonneg {q : ℚ} (h : 0 ≤ q) : 0 ≤ pyInt q := by
  rw [pyInt_eq_floor h]
  exact Int.floor_nonneg.mpr h

theorem pyInt_nonpos {q : ℚ} (h : q ≤ 0) : pyInt q ≤ 0 := by
  rw [pyInt_eq_ceil h]
  exact Int.ceil_le.mpr (by exact_mod_cast h)

theorem abs_pyInt_sub_lt (q : ℚ) : |(pyInt q : ℚ) - q| < 1 := by
  rcases le_or_lt 0 q with h | h
  · rw [pyInt_eq_floor h]
    have h1 := Int.floor_le q
    have h2 := Int.sub_one_lt_floor q
    rw [abs_lt]
    constructor <;> linarith
  · rw [pyInt_eq_ceil h.le]
    have h1 := Int.le_ceil q
    have h2 := Int.ceil_lt_add_one q
    rw [abs_lt]
    constructor <;> linarith

theorem pyInt_mono {q r : ℚ} (h : q ≤ r) : pyInt q ≤ pyInt r := by
  rcases le_or_lt 0 q with hq | hq
  · rw [pyInt_eq_floor hq, pyInt_eq_floor (hq.trans h)]
    exact Int.floor_le_floor h
  · rcases le_or_lt 0 r with hr | hr
    · rw [pyInt_eq_ceil hq.le, pyInt_eq_floor hr]
      exact le_trans (Int.ceil_le.mpr (by exact_mod_cast hq.le)) (Int.floor_nonneg.mpr hr)
    · rw [pyInt_eq_ceil hq.le, pyInt_eq_ceil hr.le]
      exact Int.ceil_le_ceil h

theorem ms_to_samples_eq_pyInt (x : ℚ) (sr : ℕ) :
    ms_to_samples x sr = pyInt (x / 1000 * sr) := rfl

theorem ms_to_samples_of_eq_int {x : ℚ} {k : ℤ} (sr : ℕ) (h : x / 1000 * sr = (k : ℚ)) :
    ms_to_samples x sr = k := by
  rw [ms_to_samples_eq_pyInt, h, pyInt_intCast]

theorem ms_to_samples_zero (sr : ℕ) : ms_to_samples 0 sr = 0 :=
  ms_to_samples_of_eq_int sr (by push_cast; ring)

/-- With a common sample rate, the end-length correction of the transforms is
exact: converting the millisecond difference of two integer sample counts back
to samples recovers the integer difference. -/
theorem end_shift_exact (A B : ℕ) (sr : ℕ) (h : 0 < sr) :
    ms_to_samples (samples_to_ms (A : ℤ) sr - samples_to_ms (B : ℤ) sr) sr = (A : ℤ) - B := by
  have hsr : (sr : ℚ) ≠ 0 := Nat.cast_ne_zero.mpr h.ne'
  apply ms_to_samples_of_eq_int
  unfold samples_to_ms samples_to_sec
  push_cast
  field_simp
  ring

/-- The sign of the end-length millisecond difference matches the sign of the
sample-count difference. -/
theorem end_shift_sign {A B : ℕ} (sr : ℕ) (h : 0 < sr) (hAB : A ≤ B) :
    samples_to_ms (A : ℤ) sr - samples_to_ms (B : ℤ) sr ≤ 0 := by
  have hsr : (0 : ℚ) < sr := by exact_mod_cast h
  unfold samples_to_ms samples_to_sec
  have : ((A : ℤ) : ℚ) ≤ ((B : ℤ) : ℚ) := by exact_mod_cast hAB
  have hdiv : ((A : ℤ) : ℚ) / sr ≤ ((B : ℤ) : ℚ) / sr := by gcongr
  linarith

theorem maskIdx_length (lo hi k : ℕ) (l : List ℚ) : (maskIdx lo hi k l).length = l.length := by
  induction l generalizing k with
  | nil => rfl
  | cons x xs ih => simp [maskIdx, ih]

theorem maskIdx_getD (lo hi : ℕ) (l : List ℚ) (k i : ℕ) (h : i < l.length) :
    (maskIdx lo hi k l).getD i 0 =
      if lo ≤ k + i ∧ k + i < hi then 0 else l.getD i 0 := by
  induction l generalizing k i with
  | nil => simp at h
  | cons x xs ih =>
    cases i with
    | zero => simp [maskIdx]
    | succ n =>
      have hn : n < xs.length := by simpa using h
      simp only [maskIdx, List.getD_cons_succ]
      rw [ih (k + 1) n hn]
      have hk : k + 1 + n = k + (n + 1) := by omega
      rw [hk]

theorem getD_map_range (f : ℕ → ℚ) (n i : ℕ) (h : i < n) :
    ((List.range n).map f).getD i 0 = f i := by
  rw [List.getD_eq_getElem?_getD, List.getElem?_map, List.getElem?_range h]
  rfl

/-! ### The claims -/

/-- C1.  The claim asks for an explicit, descriptive degenerate-input error
when a waveform is shorter than `win_length_ms` worth of samples.  The code has
no such check: with two one-sample waveforms at `sr = 16000` (window = 400
samples) both envelopes are empty and `get_shift_ms` dies inside
`scipy.signal.correlate`/`np.correlate` with that library's empty-input
`ValueError`, an error unrelated to the degenerate-input rejection the spec
demands. -/
theorem c1_library_error_not_degenerate :
    get_shift_ms [0] [0] 16000 16000 25 10 1 30 = .error .emptyCorrelate ∧
    PyErr.emptyCorrelate ≠ PyErr.degenerateInput := by
  constructor
  · decide
  · decide

/-- C2 counterexample.  For `min_overlap_sec = 1/2000` (a positive value) the
frame count `n = int(1000 * min_overlap_sec / hop_length_ms) = 0`, and Python's
`corr[-0:] = 0` assigns to the whole array: the constraint step zeroes every
entry instead of leaving the sequence unchanged as the claim (`n = 0` zeroes
nothing) requires. -/
theorem c2_counterexample :
    sec_to_frames (1 / 2000) 10 = 0 ∧
    min_overlap_step [1, 2, 3] (sec_to_frames (1 / 2000) 10) = [0, 0, 0] := by
  constructor
  · decide
  · decide

/-- C2 amended: for `n ≥ 1` the constraint step zeroes exactly the first `n`
and last `n` entries (clamped to the sequence) and leaves every other entry
unchanged; the claim's `n = 0` case is false because `corr[-0:] = 0` zeroes the
whole sequence. -/
theorem c2_amended_zeroing (corr : List ℚ) (n : ℤ) (hn : 1 ≤ n) :
    (min_overlap_step corr n).length = corr.length ∧
    ∀ i, i < corr.length →
      (min_overlap_step corr n).getD i 0 =
        if (i : ℤ) < n ∨ (corr.length : ℤ) - n ≤ (i : ℤ) then 0 else corr.getD i 0 := by
  unfold min_overlap_step
  rw [maskIdx_length]
  refine ⟨by rw [maskIdx_length], ?_⟩
  intro i hi
  have hlen1 : i < (maskIdx 0 (pyBound corr.length n) 0 corr).length := by
    rw [maskIdx_length]; exact hi
  rw [maskIdx_getD _ _ _ _ _ hlen1, maskIdx_getD _ _ _ _ _ hi]
  simp only [maskIdx_length, zero_add]
  have hb1 : pyBound corr.length n = min n.toNat corr.length := by
    unfold pyBound
    rw [if_neg (by omega)]
  have hb2 : pyBound corr.length (-n) = ((corr.length : ℤ) - n).toNat := by
    unfold pyBound
    rw [if_pos (by omega)]
    ring_nf
  rw [hb1, hb2]
  by_cases h1 : ((corr.length : ℤ) - n) ≤ (i : ℤ)
  · rw [if_pos ⟨by omega, hi⟩, if_pos (Or.inr h1)]
  · rw [if_neg (by rintro ⟨hc, -⟩; omega)]
    by_cases h2 : (i : ℤ) < n
    · rw [if_pos ⟨Nat.zero_le _, by omega⟩, if_pos (Or.inl h2)]
    · rw [if_neg (by rintro ⟨-, hc⟩; omega),
        if_neg (by rintro (hc | hc); exacts [h2 hc, h1 hc])]

theorem c2_amended_zeroing_witness :
    (1 : ℤ) ≤ 2 ∧
    ((min_overlap_step [5, 6, 7, 8, 9] 2).length = [(5 : ℚ), 6, 7, 8, 9].length ∧
      ∀ i, i < [(5 : ℚ), 6, 7, 8, 9].length →
        (min_overlap_step [5, 6, 7, 8, 9] 2).getD i 0 =
          if (i : ℤ) < 2 ∨ (([(5 : ℚ), 6, 7, 8, 9].length : ℤ)) - 2 ≤ (i : ℤ) then 0
          else [(5 : ℚ), 6, 7, 8, 9].getD i 0) :=
  ⟨by decide, c2_amended_zeroing [5, 6, 7, 8, 9] 2 (by decide)⟩

/-- C4 counterexample.  The claim says a waveform with exactly `n = w` samples
yields a one-frame envelope (windows at `i` with `i + w ≤ n`).  The code's
`range(0, n - win_length, hop_length)` is strict: with `n = w = 2`, `h = 1` it
emits no frame at all. -/
theorem c4_counterexample : ¬ (rms_frames (List.replicate 2 (1 : ℚ)) 2 1).length = 1 := by
  decide

/-- C4 amended: frames are emitted at `i = 0, h, 2h, …` while `i + w < n`
strictly, so the envelope length is `ceil((n − w) / h)` clamped to `≥ 0`
(not `floor`), and a waveform with exactly `n = w` samples yields an empty
envelope. -/
theorem c4_amended_length (audio : List ℚ) (w h : ℕ) (hh : 1 ≤ h) :
    (rms_frames audio w h).length =
      (⌈(((audio.length : ℤ) - (w : ℤ) : ℤ) : ℚ) / (h : ℚ)⌉).toNat := by
  unfold rms_frames pyRange
  rw [List.length_map, List.length_map, List.length_range]
  set stop : ℤ := (audio.length : ℤ) - (w : ℤ) with hstop
  rcases le_or_lt stop 0 with hle | hlt
  · rw [if_pos hle]
    have hq : ((stop : ℚ)) / (h : ℚ) ≤ 0 := by
      apply div_nonpos_of_nonpos_of_nonneg
      · exact_mod_cast hle
      · positivity
    have : (⌈(stop : ℚ) / (h : ℚ)⌉) ≤ 0 := Int.ceil_le.mpr (by exact_mod_cast hq)
    omega
  · rw [if_neg (by omega)]
    set s : ℕ := stop.toNat with hs
    have hs1 : 1 ≤ s := by omega
    have hcast : ((stop : ℚ)) = (s : ℚ) := by
      have : ((s : ℤ)) = stop := Int.toNat_of_nonneg hlt.le
      exact_mod_cast this.symm
    rw [hcast]
    set z : ℕ := (s + h - 1) / h with hz
    have hdm := Nat.div_add_mod (s + h - 1) h
    rw [← hz] at hdm
    have hmod : (s + h - 1) % h < h := Nat.mod_lt _ (by omega)
    have hzph : h * z ≤ s + h - 1 := by omega
    have hmul : h * (z + 1) = h * z + h := by ring
    have hzph2 : s + h - 1 < h * (z + 1) := by omega
    have h1 : s ≤ h * z := by omega
    have h2 : h * z < s + h := by omega
    have hceil : ⌈(s : ℚ) / (h : ℚ)⌉ = (z : ℤ) := by
      have hhq : (0 : ℚ) < (h : ℚ) := by exact_mod_cast hh
      apply le_antisymm
      · apply Int.ceil_le.mpr
        rw [show (((z : ℤ)) : ℚ) = (z : ℚ) by push_cast; ring, div_le_iff₀ hhq]
        have hcast1 : (s : ℚ) ≤ ((h * z : ℕ) : ℚ) := by exact_mod_cast h1
        push_cast at hcast1
        linarith
      · rw [Int.le_ceil_iff]
        rw [show (((z : ℤ)) : ℚ) = (z : ℚ) by push_cast; ring, lt_div_iff₀ hhq]
        have hcast2 : ((h * z : ℕ) : ℚ) < (s : ℚ) + h := by exact_mod_cast h2
        push_cast at hcast2
        nlinarith
    rw [hceil]
    exact (Int.toNat_natCast z).symm

theorem c4_amended_length_witness :
    1 ≤ 2 ∧
    (rms_frames (List.replicate 5 (1 : ℚ)) 2 2).length =
      (⌈((((List.replicate 5 (1 : ℚ)).length : ℤ) - ((2 : ℕ) : ℤ) : ℤ) : ℚ) / ((2 : ℕ) : ℚ)⌉).toNat :=
  ⟨by decide, c4_amended_length (List.replicate 5 (1 : ℚ)) 2 2 (by decide)⟩

/-- C9 counterexample.  Millisecond displacements are converted with `int()`,
which truncates toward zero, not with round-to-nearest: `1 ms` at
`sr = 1500` is `1.5` samples, which the claim says becomes 2 samples but the
code makes 1 — visible in `pad_both`, which pads `audio_b` with a single zero. -/
theorem c9_counterexample :
    ms_to_samples 1 1500 ≠ round ((1 : ℚ) / 1000 * 1500) ∧
    pad_both [] [1] 1500 1500 1 = ([0, 0], [0, 1]) := by
  constructor
  · have h1 : ms_to_samples 1 1500 = 1 := by decide
    have h2 : round ((1 : ℚ) / 1000 * 1500) = 2 := by
      norm_num [round_eq]
    rw [h1, h2]
    decide
  · decide

/-- C9 amended: each millisecond displacement is converted with the respective
waveform's own sample rate as `int(ms / 1000 * sr)`, truncation toward zero;
for a nonnegative displacement this is the floor, so a fractional part `≥ 0.5`
is still dropped, and the conversion error is strictly below one sample. -/
theorem c9_amended_truncation (ms : ℚ) (sr : ℕ) (h : 0 ≤ ms) :
    ms_to_samples ms sr = ⌊ms / 1000 * (sr : ℚ)⌋ ∧
    |(ms_to_samples ms sr : ℚ) - ms / 1000 * (sr : ℚ)| < 1 := by
  have hq : 0 ≤ ms / 1000 * (sr : ℚ) := by positivity
  constructor
  · rw [ms_to_samples_eq_pyInt]
    exact pyInt_eq_floor hq
  · rw [ms_to_samples_eq_pyInt]
    exact abs_pyInt_sub_lt _

theorem c9_amended_truncation_witness :
    (0 : ℚ) ≤ 3 ∧
    (ms_to_samples 3 500 = ⌊(3 : ℚ) / 1000 * ((500 : ℕ) : ℚ)⌋ ∧
      |(ms_to_samples 3 500 : ℚ) - (3 : ℚ) / 1000 * ((500 : ℕ) : ℚ)| < 1) :=
  ⟨by norm_num, c9_amended_truncation 3 500 (by norm_num)⟩

/-- C10.  The all-ones "full correlation" used as the normalization denominator
has `len(a) + len(b) - 1` entries and every entry is at least 1 whenever both
envelopes are nonempty, so the elementwise division never divides by zero. -/
theorem c10_overlap_counts (la lb i : ℕ) (ha : 1 ≤ la) (hb : 1 ≤ lb)
    (hi : i < la + lb - 1) :
    (correlateLists (List.replicate la (1 : ℚ)) (List.replicate lb (1 : ℚ))).length
        = la + lb - 1 ∧
    1 ≤ (correlateLists (List.replicate la (1 : ℚ)) (List.replicate lb (1 : ℚ))).getD i 0 := by
  constructor
  · unfold correlateLists
    rw [List.length_map, List.length_range, List.length_replicate, List.length_replicate]
  · unfold correlateLists
    rw [List.length_replicate, List.length_replicate,
      getD_map_range _ _ _ hi]
    unfold correlateEntry
    rw [List.length_replicate]
    set t : ℤ := (i : ℤ) - ((lb : ℤ) - 1) with ht
    rcases le_or_lt t 0 with htle | htpos
    · rw [if_pos htle, List.drop_replicate, List.zipWith_replicate, one_mul,
        List.sum_replicate, nsmul_eq_mul, mul_one]
      exact Nat.one_le_cast.mpr (by omega)
    · rw [if_neg (by omega), List.drop_replicate, List.zipWith_replicate, one_mul,
        List.sum_replicate, nsmul_eq_mul, mul_one]
      exact Nat.one_le_cast.mpr (by omega)

theorem c10_overlap_counts_witness :
    1 ≤ 2 ∧ 1 ≤ 3 ∧ 2 < 2 + 3 - 1 ∧
    ((correlateLists (List.replicate 2 (1 : ℚ)) (List.replicate 3 (1 : ℚ))).length = 2 + 3 - 1 ∧
      1 ≤ (correlateLists (List.replicate 2 (1 : ℚ)) (List.replicate 3 (1 : ℚ))).getD 2 0) :=
  ⟨by decide, by decide, by decide, c10_overlap_counts 2 3 2 (by decide) (by decide) (by decide)⟩

/-- Both end-correction sample counts of the transforms, computed from the
millisecond difference of the two current lengths at a common sample rate,
are exactly the (clamped) sample-count differences. -/
theorem end_shift_max (A B : ℕ) (sr : ℕ) (h : 0 < sr) :
    ms_to_samples (max 0 (samples_to_ms (A : ℤ) sr - samples_to_ms (B : ℤ) sr)) sr
        = max ((A : ℤ) - B) 0 ∧
    ms_to_samples (-(min 0 (samples_to_ms (A : ℤ) sr - samples_to_ms (B : ℤ) sr))) sr
        = max ((B : ℤ) - A) 0 := by
  rcases le_total A B with hab | hab
  · have hd : samples_to_ms (A : ℤ) sr - samples_to_ms (B : ℤ) sr ≤ 0 := end_shift_sign sr h hab
    constructor
    · rw [max_eq_left hd, ms_to_samples_zero]
      omega
    · rw [min_eq_right hd, neg_sub, end_shift_exact B A sr h]
      omega
  · have hd : samples_to_ms (B : ℤ) sr - samples_to_ms (A : ℤ) sr ≤ 0 := end_shift_sign sr h hab
    have hd2 : 0 ≤ samples_to_ms (A : ℤ) sr - samples_to_ms (B : ℤ) sr := by linarith
    constructor
    · rw [max_eq_right hd2, end_shift_exact A B sr h]
      omega
    · rw [min_eq_left hd2, neg_zero, ms_to_samples_zero]
      omega

/-- C8 counterexample.  `shift_align` does not reject an unknown `align_how`
before computing: with two degenerate waveforms and a bogus policy name, the
call fails inside the shift estimation (the correlation library's empty-input
error) rather than with the unknown-policy error — envelope extraction and
shift estimation run before the policy name is ever examined. -/
theorem c8_counterexample :
    shift_align [0] [0] 16000 16000 "bogus" 1 30 = .error .emptyCorrelate ∧
    PyErr.emptyCorrelate ≠ PyErr.unknownAlignHow := by
  constructor
  · decide
  · decide

/-- C8 amended: for an `align_how` outside the three known policies,
`shift_align` never returns a pair, but the rejection is not immediate: the
shift is estimated first, so the unknown-policy error is raised only when the
estimation succeeds, and an estimation failure propagates instead. -/
theorem c8_amended_late_rejection (a b : List ℚ) (sra srb : ℕ) (how : String) (mo ms : ℚ)
    (h1 : how ≠ "pad_both") (h2 : how ≠ "crop_both")
    (h3 : how ≠ "pad_and_crop_one_to_match_other") :
    (∀ r, shift_align a b sra srb how mo ms ≠ .ok r) ∧
    (∀ s, get_shift_ms a b sra srb 25 10 mo ms = .ok s →
        shift_align a b sra srb how mo ms = .error .unknownAlignHow) := by
  unfold shift_align
  cases hg : get_shift_ms a b sra srb 25 10 mo ms with
  | error e =>
    refine ⟨fun r hc => ?_, fun s hs => ?_⟩
    · exact Except.noConfusion hc
    · exact Except.noConfusion hs
  | ok s =>
    dsimp only
    rw [if_neg h1, if_neg h2, if_neg h3]
    refine ⟨fun r hc => Except.noConfusion hc, fun s2 _ => rfl⟩

theorem c8_amended_late_rejection_witness :
    shift_align wit_const wit_const 100 100 "x" 1 30 ≠ .ok (wit_const, wit_const) :=
  (c8_amended_late_rejection wit_const wit_const 100 100 "x" 1 30
      (by decide) (by decide) (by decide)).1 (wit_const, wit_const)

/-- C3.  With a common sample rate, `pad_both` returns two equal-length
waveforms, each at least as long as its input and at least as long as the
longer input, and each output is its original input with only zero samples
prepended and appended. -/
theorem c3_pad_both_padding (a b : List ℚ) (sr : ℕ) (hsr : 0 < sr) (shift : ℚ) :
    (pad_both a b sr sr shift).1.length = (pad_both a b sr sr shift).2.length ∧
    a.length ≤ (pad_both a b sr sr shift).1.length ∧
    b.length ≤ (pad_both a b sr sr shift).2.length ∧
    max a.length b.length ≤ (pad_both a b sr sr shift).1.length ∧
    (∃ p q, (pad_both a b sr sr shift).1 = List.replicate p 0 ++ a ++ List.replicate q 0) ∧
    (∃ p q, (pad_both a b sr sr shift).2 = List.replicate p 0 ++ b ++ List.replicate q 0) := by
  simp only [pad_both]
  set A : List ℚ := List.replicate (ms_to_samples (-(min 0 shift)) sr).toNat 0 ++ a with hA
  set B : List ℚ := List.replicate (ms_to_samples (max 0 shift) sr).toNat 0 ++ b with hB
  set d : ℚ := samples_to_ms (A.length : ℤ) sr - samples_to_ms (B.length : ℤ) sr with hd
  have hends := end_shift_max A.length B.length sr hsr
  rw [← hd] at hends
  rcases hends with ⟨hea, heb⟩
  rw [heb, hea]
  have hAlen : A.length = (ms_to_samples (-(min 0 shift)) sr).toNat + a.length := by
    rw [hA, List.length_append, List.length_replicate]
  have hBlen : B.length = (ms_to_samples (max 0 shift) sr).toNat + b.length := by
    rw [hB, List.length_append, List.length_replicate]
  refine ⟨?_, ?_, ?_, ?_, ?_, ?_⟩
  · simp only [List.length_append, List.length_replicate]
    omega
  · simp only [List.length_append, List.length_replicate]
    omega
  · simp only [List.length_append, List.length_replicate]
    omega
  · simp only [List.length_append, List.length_replicate]
    omega
  · exact ⟨(ms_to_samples (-(min 0 shift)) sr).toNat,
      (max ((B.length : ℤ) - A.length) 0).toNat, by rw [hA, List.append_assoc]⟩
  · exact ⟨(ms_to_samples (max 0 shift) sr).toNat,
      (max ((A.length : ℤ) - B.length) 0).toNat, by rw [hB, List.append_assoc]⟩

theorem c3_pad_both_padding_witness :
    0 < 1 ∧
    ((pad_both [1, 2] [3] 1 1 5).1.length = (pad_both [1, 2] [3] 1 1 5).2.length ∧
      [(1 : ℚ), 2].length ≤ (pad_both [1, 2] [3] 1 1 5).1.length ∧
      [(3 : ℚ)].length ≤ (pad_both [1, 2] [3] 1 1 5).2.length ∧
      max [(1 : ℚ), 2].length [(3 : ℚ)].length ≤ (pad_both [1, 2] [3] 1 1 5).1.length ∧
      (∃ p q, (pad_both [1, 2] [3] 1 1 5).1
          = List.replicate p 0 ++ [(1 : ℚ), 2] ++ List.replicate q 0) ∧
      (∃ p q, (pad_both [1, 2] [3] 1 1 5).2
          = List.replicate p 0 ++ [(3 : ℚ)] ++ List.replicate q 0)) :=
  ⟨by decide, c3_pad_both_padding [1, 2] [3] 1 (by decide) 5⟩

/-- C6.  With a common sample rate, `crop_both` returns two equal-length
waveforms, each no longer than its input and each a contiguous sub-slice of
its input (only leading and/or trailing samples are removed). -/
theorem c6_crop_both_cropping (a b : List ℚ) (sr : ℕ) (hsr : 0 < sr) (shift : ℚ) :
    (crop_both a b sr sr shift).1.length = (crop_both a b sr sr shift).2.length ∧
    (crop_both a b sr sr shift).1.length ≤ a.length ∧
    (crop_both a b sr sr shift).2.length ≤ b.length ∧
    (crop_both a b sr sr shift).1 <:+: a ∧
    (crop_both a b sr sr shift).2 <:+: b := by
  simp only [crop_both]
  set A : List ℚ := a.drop (ms_to_samples (max 0 shift) sr).toNat with hA
  set B : List ℚ := b.drop (ms_to_samples (-(min 0 shift)) sr).toNat with hB
  set d : ℚ := samples_to_ms (A.length : ℤ) sr - samples_to_ms (B.length : ℤ) sr with hd
  have hends := end_shift_max A.length B.length sr hsr
  rw [← hd] at hends
  rcases hends with ⟨hea, heb⟩
  rw [hea, heb]
  have hAsuf : A <:+ a := by rw [hA]; exact List.drop_suffix _ _
  have hBsuf : B <:+ b := by rw [hB]; exact List.drop_suffix _ _
  have hAlen : A.length ≤ a.length := hAsuf.length_le
  have hBlen : B.length ≤ b.length := hBsuf.length_le
  constructor
  · by_cases hc1 : 0 < max ((A.length : ℤ) - B.length) 0 <;>
      by_cases hc2 : 0 < max ((B.length : ℤ) - A.length) 0 <;>
        simp only [hc1, hc2, if_pos, if_neg, if_true, if_false, List.length_take] <;>
          omega
  · refine ⟨?_, ?_, ?_, ?_⟩
    · by_cases hc1 : 0 < max ((A.length : ℤ) - B.length) 0 <;>
        simp only [hc1, if_pos, if_neg, if_true, if_false, List.length_take] <;> omega
    · by_cases hc2 : 0 < max ((B.length : ℤ) - A.length) 0 <;>
        simp only [hc2, if_pos, if_neg, if_true, if_false, List.length_take] <;> omega
    · by_cases hc1 : 0 < max ((A.length : ℤ) - B.length) 0
      · rw [if_pos hc1]
        exact (( List.take_prefix _ _).isInfix).trans hAsuf.isInfix
      · rw [if_neg hc1]
        exact hAsuf.isInfix
    · by_cases hc2 : 0 < max ((B.length : ℤ) - A.length) 0
      · rw [if_pos hc2]
        exact (( List.take_prefix _ _).isInfix).trans hBsuf.isInfix
      · rw [if_neg hc2]
        exact hBsuf.isInfix

theorem c6_crop_both_cropping_witness :
    0 < 1000 ∧
    ((crop_both [1, 2, 3, 4] [3, 4, 5] 1000 1000 2).1.length
        = (crop_both [1, 2, 3, 4] [3, 4, 5] 1000 1000 2).2.length ∧
      (crop_both [1, 2, 3, 4] [3, 4, 5] 1000 1000 2).1.length ≤ [(1 : ℚ), 2, 3, 4].length ∧
      (crop_both [1, 2, 3, 4] [3, 4, 5] 1000 1000 2).2.length ≤ [(3 : ℚ), 4, 5].length ∧
      (crop_both [1, 2, 3, 4] [3, 4, 5] 1000 1000 2).1 <:+: [(1 : ℚ), 2, 3, 4] ∧
      (crop_both [1, 2, 3, 4] [3, 4, 5] 1000 1000 2).2 <:+: [(3 : ℚ), 4, 5]) :=
  ⟨by decide, c6_crop_both_cropping [1, 2, 3, 4] [3, 4, 5] 1000 (by decide) 2⟩

/-- C5.  `pad_and_crop_one_to_match_other` returns waveform A untouched, and
the returned B has duration (length over its own sample rate) within one
B-sample of A's duration; with equal sample rates the returned B has exactly
A's length. -/
theorem c5_pad_and_crop_matches_a (a b : List ℚ) (sra srb : ℕ)
    (ha : 0 < sra) (hb : 0 < srb) (shift : ℚ) :
    (pad_and_crop_one_to_match_other a b sra srb shift).1 = a ∧
    |((pad_and_crop_one_to_match_other a b sra srb shift).2.length : ℚ) / (srb : ℚ)
        - (a.length : ℚ) / (sra : ℚ)| < 1 / (srb : ℚ) ∧
    (sra = srb → (pad_and_crop_one_to_match_other a b sra srb shift).2.length = a.length) := by
  have hsraQ : (0 : ℚ) < (sra : ℚ) := by exact_mod_cast ha
  have hsrbQ : (0 : ℚ) < (srb : ℚ) := by exact_mod_cast hb
  simp only [pad_and_crop_one_to_match_other]
  set b1 : List ℚ :=
    (if ms_to_samples shift srb < 0 then b.drop (-ms_to_samples shift srb).toNat
     else List.replicate (ms_to_samples shift srb).toNat 0 ++ b) with hb1
  set x : ℚ := (srb : ℚ) * (a.length : ℚ) / (sra : ℚ) - (b1.length : ℚ) with hx
  have hse : ms_to_samples
      (samples_to_ms (a.length : ℤ) sra - samples_to_ms (b1.length : ℤ) srb) srb
        = pyInt x := by
    rw [ms_to_samples_eq_pyInt]
    congr 1
    rw [hx]
    unfold samples_to_ms samples_to_sec
    push_cast
    field_simp
    ring
  rw [hse]
  have hxlb : -((b1.length : ℚ)) ≤ x := by
    rw [hx]
    have : 0 ≤ (srb : ℚ) * (a.length : ℚ) / (sra : ℚ) := by positivity
    linarith
  have hselb : -((b1.length : ℤ)) ≤ pyInt x := by
    have h1 : pyInt ((-(b1.length : ℤ) : ℤ) : ℚ) ≤ pyInt x := by
      apply pyInt_mono
      push_cast
      exact hxlb
    rwa [pyInt_intCast] at h1
  have hlen2 : ((if pyInt x < 0 then b1.take (b1.length - (-pyInt x).toNat)
      else b1 ++ List.replicate (pyInt x).toNat 0).length : ℤ) = (b1.length : ℤ) + pyInt x := by
    by_cases hneg : pyInt x < 0
    · rw [if_pos hneg, List.length_take]
      omega
    · rw [if_neg hneg, List.length_append, List.length_replicate]
      omega
  refine ⟨by trivial, ?_, ?_⟩
  · rw [show (((if pyInt x < 0 then b1.take (b1.length - (-pyInt x).toNat)
        else b1 ++ List.replicate (pyInt x).toNat 0).length : ℚ))
          = (((b1.length : ℤ) + pyInt x : ℤ) : ℚ) by exact_mod_cast congrArg Int.cast hlen2]
    have habs := abs_pyInt_sub_lt x
    rw [show (((b1.length : ℤ) + pyInt x : ℤ) : ℚ) / (srb : ℚ) - (a.length : ℚ) / (sra : ℚ)
        = ((pyInt x : ℚ) - x) / (srb : ℚ) by rw [hx]; push_cast; field_simp; ring]
    rw [abs_div, abs_of_pos hsrbQ]
    exact div_lt_div_of_pos_right habs hsrbQ
  · intro hsr
    subst hsr
    have hxint : x = (((a.length : ℤ) - (b1.length : ℤ) : ℤ) : ℚ) := by
      rw [hx]
      push_cast
      field_simp
    have : pyInt x = (a.length : ℤ) - (b1.length : ℤ) := by rw [hxint, pyInt_intCast]
    omega

theorem c5_pad_and_crop_matches_a_witness :
    0 < 2 ∧ 0 < 2 ∧
    ((pad_and_crop_one_to_match_other [1, 2, 3] [4, 5] 2 2 1).1 = [(1 : ℚ), 2, 3] ∧
      |((pad_and_crop_one_to_match_other [1, 2, 3] [4, 5] 2 2 1).2.length : ℚ) / ((2 : ℕ) : ℚ)
          - ([(1 : ℚ), 2, 3].length : ℚ) / ((2 : ℕ) : ℚ)| < 1 / ((2 : ℕ) : ℚ) ∧
      (2 = 2 → (pad_and_crop_one_to_match_other [1, 2, 3] [4, 5] 2 2 1).2.length
          = [(1 : ℚ), 2, 3].length)) :=
  ⟨by decide, by decide, c5_pad_and_crop_matches_a [1, 2, 3] [4, 5] 2 2 (by decide) (by decide) 1⟩

theorem correlateLists_length (a b : List ℚ) :
    (correlateLists a b).length = a.length + b.length - 1 := by
  unfold correlateLists
  rw [List.length_map, List.length_range]

theorem normalized_corr_length (a b : List ℚ) (h : a.length = b.length) :
    (normalized_corr a b).length = a.length + b.length - 1 := by
  unfold normalized_corr onesLike
  rw [List.length_zipWith, correlateLists_length, correlateLists_length]
  simp [h]

theorem npRoundHalfLen_odd (m : ℕ) (hm : 1 ≤ m) :
    npRoundHalfLen (2 * m - 1) = m - 1 ∨ npRoundHalfLen (2 * m - 1) = m := by
  unfold npRoundHalfLen
  rw [if_neg (by omega)]
  have h2 : (2 * m - 1) / 2 = m - 1 := by omega
  rw [h2]
  by_cases hp : (m - 1) % 2 = 0
  · rw [if_pos hp]
    exact Or.inl rfl
  · rw [if_neg hp]
    right
    omega

/-- The envelope of the C7 counterexample waveform at `sr = 100`. -/
theorem c7_env_value : audio_to_rms_envelope c7_audio 100 25 10 = c7_rms := by decide

/-- The shift the estimator computes from that envelope against itself with the
default constraints: every unmasked entry of the normalized self-correlation
equals 1, the first-maximum tie-break picks the lowest surviving index 100,
and `half_idx` is 102 by the round-half-to-even rule, so the estimate is two
hops, `-20 ms`. -/
theorem c7_shift_value : shift_from_envelopes c7_rms c7_rms 10 1 30 = -20 := by decide

/-- C7 counterexample.  A waveform compared against itself whose envelope
survives the default constraints can still get a shift estimate beyond one hop
of 0: the constant `c7_audio` yields `get_shift_ms = -20 ms`, not within one
hop interval (10 ms) of 0, because the all-tied constrained correlation
resolves to its first surviving index rather than the zero-lag index. -/
theorem c7_counterexample :
    get_shift_ms c7_audio c7_audio 100 100 25 10 1 30 = .ok (-20) ∧
    ¬ (|(-20 : ℚ)| ≤ 10) := by
  constructor
  · simp only [get_shift_ms, c7_env_value]
    rw [if_neg (by decide : ¬((c7_rms.isEmpty || c7_rms.isEmpty) = true)), c7_shift_value]
  · rw [abs_of_nonpos (by norm_num)]
    norm_num

/-- C7 amended: self-alignment is within one hop interval (10 ms) of 0
whenever the first maximum of the constrained normalized self-correlation is
at the zero-lag position `len(envelope) - 1`; the result is then `0` or
`-10 ms` depending only on the parity tie-break in `half_idx`.  (The original
claim is false: the first maximum need not be at zero lag, see the
counterexample.) -/
theorem c7_amended_zero_lag (audio : List ℚ) (sr : ℕ) (mo msh : ℚ) (rms : List ℚ)
    (hE : audio_to_rms_envelope audio sr 25 10 = rms) (hne : rms ≠ [])
    (hargmax : argmaxIdx (constrained_corr rms rms 10 mo msh) = rms.length - 1) :
    ∃ s, get_shift_ms audio audio sr sr 25 10 mo msh = .ok s ∧ |s| ≤ 10 := by
  have hm : 1 ≤ rms.length := by
    cases rms with
    | nil => exact absurd rfl hne
    | cons x xs => simp
  have hie : rms.isEmpty = false := by
    cases rms with
    | nil => exact absurd rfl hne
    | cons x xs => rfl
  refine ⟨shift_from_envelopes rms rms 10 mo msh, ?_, ?_⟩
  · simp only [get_shift_ms, hE, hie, Bool.or_self]
    rfl
  · simp only [shift_from_envelopes, frames_to_ms]
    rw [hargmax, normalized_corr_length rms rms rfl]
    have h2m : rms.length + rms.length - 1 = 2 * rms.length - 1 := by omega
    rw [h2m]
    rcases npRoundHalfLen_odd rms.length hm with hh | hh <;> rw [hh]
    · have hz : (((rms.length - 1 : ℕ) : ℚ) - ((rms.length - 1 : ℕ) : ℚ)
          + (((rms.length : ℕ) : ℚ) - ((rms.length : ℕ) : ℚ)) / 2) * 10 = 0 := by ring
      rw [hz]
      norm_num
    · have hc : ((rms.length - 1 : ℕ) : ℚ) = ((rms.length : ℕ) : ℚ) - 1 := by
        push_cast [hm]
        ring
      rw [hc]
      have hz : ((((rms.length : ℕ) : ℚ) - 1) - ((rms.length : ℕ) : ℚ)
          + (((rms.length : ℕ) : ℚ) - ((rms.length : ℕ) : ℚ)) / 2) * 10 = -10 := by ring
      rw [hz]
      norm_num

theorem c7_amended_zero_lag_witness :
    ∃ s, get_shift_ms wit_const wit_const 100 100 25 10 1 30 = .ok s ∧ |s| ≤ 10 :=
  c7_amended_zero_lag wit_const 100 1 30 (List.replicate 101 1)
    (by decide) (by decide) (by decide)

end Shign
